import Mathlib

/-!
Shallow embedding of the local persistence and identity layer of the
Ideas & Projects Manager (Electron / IndexedDB application).

The IndexedDB object stores are modelled as lists of records keyed by
their `keyPath` field (`id` for `projects` and `content`, `name` for
`counters`).  `store.put` is insert-or-replace on that key.  ISO-8601
timestamp strings are compared lexicographically by the code, which on
the fixed-width `toISOString` format coincides with chronological
order, so timestamps are modelled as `Nat` with `<`.  Each IndexedDB
readwrite transaction is atomic and serialized against other
transactions touching the same store, so every database method below
is one atomic state transition.
-/

/-- A record of the `projects` object store (keyPath `id`). -/
structure Project where
  id : Nat
  name : String
  createdAt : Nat
deriving Repr, DecidableEq

/-- The file payload attached to a content record (built by
`FileHandler.handleFileSelect`). -/
structure FilePayload where
  name : String
  type : String
  size : Nat
  content : String
  extension : String
  isImage : Bool
deriving Repr, DecidableEq

/-- A record of the `content` object store (keyPath `id`,
secondary index on `projectId`). -/
structure Content where
  id : Nat
  projectId : Nat
  text : String
  createdAt : Nat
  updatedAt : Option Nat
  file : Option FilePayload
deriving Repr, DecidableEq

/-- A record of the `counters` object store (keyPath `name`). -/
structure Counter where
  name : String
  value : Nat
deriving Repr, DecidableEq

/-- The whole database: the three object stores created in
`DatabaseManager.init`. -/
structure DB where
  projects : List Project
  contents : List Content
  counters : List Counter
deriving Repr, DecidableEq

/-- JavaScript `String.prototype.trim` on the character list: drop
whitespace from both ends.  Structural recursion, so it evaluates
inside the kernel. -/
def trimChars (l : List Char) : List Char :=
  ((l.dropWhile Char.isWhitespace).reverse.dropWhile Char.isWhitespace).reverse

/-- JavaScript `value.trim()`. -/
def jsTrim (s : String) : String :=
  ⟨trimChars s.data⟩

/-- Embeds `store.put x`: insert-or-replace the record whose key equals
`key x`. -/
def putByKey {α β : Type} [DecidableEq β] (key : α → β) (l : List α) (x : α) :
    List α :=
  l.filter (fun y => key y ≠ key x) ++ [x]

/-- The database right after `DatabaseManager.init` ran the
`onupgradeneeded` seeding: empty stores, both counters at 1. -/
def initDB : DB :=
  { projects := []
    contents := []
    counters := [⟨"projectId", 1⟩, ⟨"contentId", 1⟩] }

/-- Embeds `store.get counterName` on the counters store. -/
def DB.lookupCounter (db : DB) (counterName : String) : Option Counter :=
  db.counters.find? (fun c => c.name = counterName)

/-- Embeds `DatabaseManager.getNextId`: one readwrite transaction on
`counters` that reads the counter (defaulting to value 1 when the row
is absent), writes back `value + 1` and returns the value read. -/
def DB.getNextId (db : DB) (counterName : String) : Nat × DB :=
  let counter := (db.lookupCounter counterName).getD ⟨counterName, 1⟩
  let nextId := counter.value
  let updated : Counter := { counter with value := nextId + 1 }
  (nextId, { db with counters := putByKey Counter.name db.counters updated })

/-- Embeds `DatabaseManager.saveProject`: a `put` on the projects store. -/
def DB.saveProject (db : DB) (p : Project) : DB :=
  { db with projects := putByKey Project.id db.projects p }

/-- Embeds `DatabaseManager.getProject`. -/
def DB.getProject (db : DB) (id : Nat) : Option Project :=
  db.projects.find? (fun p => p.id = id)

/-- Embeds `DatabaseManager.deleteProject`: one readwrite transaction over
both stores deleting the project record and every content record whose
`projectId` equals `id` (collected through the `projectId` index). -/
def DB.deleteProject (db : DB) (id : Nat) : DB :=
  { db with
    projects := db.projects.filter (fun p => p.id ≠ id)
    contents := db.contents.filter (fun c => c.projectId ≠ id) }

/-- Embeds `DatabaseManager.saveContent`: a `put` on the content store. -/
def DB.saveContent (db : DB) (c : Content) : DB :=
  { db with contents := putByKey Content.id db.contents c }

/-- Embeds `DatabaseManager.getProjectContent`: the `projectId` index `getAll`. -/
def DB.getProjectContent (db : DB) (projectId : Nat) : List Content :=
  db.contents.filter (fun c => c.projectId = projectId)

/-- Embeds `DatabaseManager.deleteContent` as `store.delete id`, which removes
the record when present and succeeds unchanged when absent. -/
def DB.deleteContent (db : DB) (id : Nat) : DB :=
  { db with contents := db.contents.filter (fun c => c.id ≠ id) }

/-- Embeds `DatabaseManager.getTotalIdeasCount`: a `count` on content. -/
def DB.getTotalIdeasCount (db : DB) : Nat :=
  db.contents.length

/-- The `recentProjectIds` set built by
`DatabaseManager.getRecentProjectsCount`: ids of projects created
after the cutoff, united with `projectId`s of content created after
the cutoff.  `cutoff` stands for the `weekAgoISO` bound. -/
def DB.recentProjectIds (db : DB) (cutoff : Nat) : Finset Nat :=
  ((db.projects.filter (fun p => cutoff < p.createdAt)).map Project.id).toFinset ∪
    ((db.contents.filter (fun c => cutoff < c.createdAt)).map Content.projectId).toFinset

/-- Embeds `DatabaseManager.getRecentProjectsCount`: the size of the set. -/
def DB.getRecentProjectsCount (db : DB) (cutoff : Nat) : Nat :=
  (db.recentProjectIds cutoff).card

/-- Embeds `ProjectManager.createProject`: trims the input; when the trimmed
name is empty the method silently returns without touching the
database and without raising any error; otherwise it draws an id from
the `projectId` counter, stamps `createdAt` with the current time and
persists the new project.  The returned `Option` is `none` exactly on
the silent early return. -/
def createProject (db : DB) (input : String) (now : Nat) :
    Option Project × DB :=
  let projectName := jsTrim input
  if projectName = "" then (none, db)
  else
    let r := db.getNextId "projectId"
    let newProject : Project := ⟨r.1, projectName, now⟩
    (some newProject, r.2.saveProject newProject)

/-- Embeds `ProjectManager.addContent`: trims the text; when both the trimmed
text is empty and no file payload is staged the method silently
returns without touching the database and without raising any error;
otherwise it draws an id from the `contentId` counter and persists the
new content record (text as trimmed, `file` as the staged payload or
null, no `updatedAt`).  `currentProjectId` is the id of the project
open in the UI; the method performs no lookup of that id in the
projects store. -/
def addContent (db : DB) (currentProjectId : Nat) (input : String)
    (fileContent : Option FilePayload) (now : Nat) : Option Content × DB :=
  let contentText := jsTrim input
  if contentText = "" ∧ fileContent = none then (none, db)
  else
    let r := db.getNextId "contentId"
    let newContent : Content :=
      { id := r.1, projectId := currentProjectId, text := contentText
        createdAt := now, updatedAt := none, file := fileContent }
    (some newContent, r.2.saveContent newContent)

/-- Embeds `ProjectManager.editProject`: fetches the project (silent return
when absent), prompts for a new name (`none` models a cancelled
prompt), and when the reply is non-empty after trimming saves the
record with `name` replaced by the trimmed reply. -/
def editProject (db : DB) (projectId : Nat) (newName : Option String) : DB :=
  match db.getProject projectId with
  | none => db
  | some project =>
    match newName with
    | none => db
    | some n =>
      if jsTrim n = "" then db
      else db.saveProject { project with name := jsTrim n }

/-- Embeds `ProjectManager.deleteProject`, which delegates the store mutation to
`DatabaseManager.deleteProject`; the UI bookkeeping around it is out
of scope. -/
def pmDeleteProject (db : DB) (projectId : Nat) : DB :=
  db.deleteProject projectId

/-- Embeds `ProjectManager.saveContentEdit`: finds the content record among
the current project's content (silent return when absent), trims the
textarea value, refuses (alert + return, database untouched) when the
trimmed text is empty and the record has no file, and otherwise saves
the record with `text` replaced and `updatedAt` stamped. -/
def saveContentEdit (db : DB) (currentProjectId contentId : Nat)
    (textareaValue : String) (now : Nat) : DB :=
  match (db.getProjectContent currentProjectId).find?
      (fun c => c.id = contentId) with
  | none => db
  | some content =>
    let newText := jsTrim textareaValue
    if newText = "" ∧ content.file = none then db
    else db.saveContent { content with text := newText, updatedAt := some now }

/-- Embeds `new Blob([s]).size`: the UTF-8 byte length of the string. -/
def blobSize (s : String) : Nat :=
  s.utf8ByteSize

/-- Embeds `FileHandler.saveContentFileEdit`: finds the content record among
the current project's content, returns silently when it is absent or
has no file, and otherwise saves the record with the file's `content`
replaced by the editor value, the file's `size` recomputed, and
`updatedAt` stamped. -/
def saveContentFileEdit (db : DB) (currentProjectId contentId : Nat)
    (editorValue : String) (now : Nat) : DB :=
  match (db.getProjectContent currentProjectId).find?
      (fun c => c.id = contentId) with
  | none => db
  | some content =>
    match content.file with
    | none => db
    | some f =>
      let newFile : FilePayload :=
        { f with content := editorValue, size := blobSize editorValue }
      db.saveContent { content with file := some newFile, updatedAt := some now }

/-- Iterates `n` successive `getNextId` calls on one counter.  Each call is a
single readwrite IndexedDB transaction on `counters`, and IndexedDB
serializes overlapping readwrite transactions, so any concurrent batch
of `n` calls executes as some sequence of these atomic steps; as all
steps are the same operation, every interleaving is this iteration. -/
def getNextIdIter (db : DB) (counterName : String) : Nat → List Nat × DB
  | 0 => ([], db)
  | n + 1 =>
    let r := db.getNextId counterName
    let rest := getNextIdIter r.2 counterName n
    (r.1 :: rest.1, rest.2)

/-- A concrete reachable state with one project (id 1) owning one
content record: create a project, then add content to it. -/
def cascadeDemoDB : DB :=
  (addContent (createProject initDB "A" 1).2 1 "x" none 2).2

/-- The invariant of a single content record: non-empty text or a
non-null file. -/
def ContentOk (c : Content) : Prop :=
  c.text ≠ "" ∨ c.file ≠ none

/-- The store-wide invariant: every persisted content record is
`ContentOk`. -/
def ContentInv (db : DB) : Prop :=
  ∀ c ∈ db.contents, ContentOk c

/-- The specified characterization of a recently active projectId: the
project's own `createdAt` is inside the trailing window, or some
content record with that `projectId` is. -/
def specRecentlyActive (db : DB) (cutoff pid : Nat) : Prop :=
  (∃ p ∈ db.projects, p.id = pid ∧ cutoff < p.createdAt) ∨
  (∃ c ∈ db.contents, c.projectId = pid ∧ cutoff < c.createdAt)

instance (db : DB) (cutoff pid : Nat) :
    Decidable (specRecentlyActive db cutoff pid) := by
  unfold specRecentlyActive
  infer_instance

/-- The distinct projectId values satisfying the specified
characterization (every such value occurs in some record, so filtering
the occurring ids loses nothing). -/
def specActivePids (db : DB) (cutoff : Nat) : Finset Nat :=
  ((db.projects.map Project.id).toFinset ∪
    (db.contents.map Content.projectId).toFinset).filter
    (fun pid => specRecentlyActive db cutoff pid)

/-! ### Helper lemmas about the keyed-store primitive -/

theorem mem_putByKey {α β : Type} [DecidableEq β] (key : α → β)
    (l : List α) (x y : α) :
    y ∈ putByKey key l x ↔ (y ∈ l ∧ key y ≠ key x) ∨ y = x := by
  simp [putByKey, List.mem_filter, or_comm]

theorem find?_putByKey_self {α β : Type} [DecidableEq β] (key : α → β)
    (l : List α) (x : α) :
    (putByKey key l x).find? (fun y => key y = key x) = some x := by
  unfold putByKey
  rw [List.find?_append]
  have h : (l.filter (fun y => key y ≠ key x)).find?
      (fun y => key y = key x) = none := by
    rw [List.find?_eq_none]
    intro a ha
    simp only [List.mem_filter, decide_eq_true_eq] at ha
    simp [ha.2]
  rw [h]
  simp

/-! ### Helper lemmas about `getNextId` -/

theorem getNextId_fst (db : DB) (n : String) :
    (db.getNextId n).1 = ((db.lookupCounter n).map Counter.value).getD 1 := by
  cases h : db.lookupCounter n <;> simp [DB.getNextId, h]

theorem counterName_getD (db : DB) (n : String) :
    ((db.lookupCounter n).getD ⟨n, 1⟩).name = n := by
  cases h : db.lookupCounter n with
  | none => rfl
  | some c =>
    have hp := List.find?_some h
    simpa using hp

theorem lookupCounter_getNextId (db : DB) (n : String) :
    (db.getNextId n).2.lookupCounter n = some ⟨n, (db.getNextId n).1 + 1⟩ := by
  have hname := counterName_getD db n
  show (putByKey Counter.name db.counters
      ⟨((db.lookupCounter n).getD ⟨n, 1⟩).name,
        ((db.lookupCounter n).getD ⟨n, 1⟩).value + 1⟩).find?
      (fun y => y.name = n) =
    some ⟨n, ((db.lookupCounter n).getD ⟨n, 1⟩).value + 1⟩
  rw [hname]
  exact find?_putByKey_self Counter.name db.counters
    ⟨n, ((db.lookupCounter n).getD ⟨n, 1⟩).value + 1⟩

theorem getNextId_projects (db : DB) (n : String) :
    (db.getNextId n).2.projects = db.projects := rfl

theorem getNextId_contents (db : DB) (n : String) :
    (db.getNextId n).2.contents = db.contents := rfl

theorem getNextId_succ (db : DB) (n : String) :
    ((db.getNextId n).2.getNextId n).1 = (db.getNextId n).1 + 1 := by
  rw [getNextId_fst, lookupCounter_getNextId]
  rfl

theorem getNextIdIter_fst (db : DB) (n : String) (k : Nat) :
    (getNextIdIter db n k).1 = List.range' (db.getNextId n).1 k := by
  induction k generalizing db with
  | zero => rfl
  | succ k ih =>
    rw [List.range'_succ]
    show (db.getNextId n).1 :: (getNextIdIter (db.getNextId n).2 n k).1 = _
    rw [ih, getNextId_succ]

/-! ### Claim theorems -/

/-- C1: `getNextId` returns the counter's current stored value
(treated as 1 when the row is absent) and, in the same atomic
transaction, stores that value plus 1; when no row exists it returns 1
and stores 2; consequently any sequence of successive calls on one
counter returns the consecutive strictly increasing integers
`start, start + 1, ...` (`List.range' start k`), and the other object
stores are untouched. -/
theorem getNextId_sequential_counter (db : DB) (counterName : String) :
    ((db.getNextId counterName).1 =
      ((db.lookupCounter counterName).map Counter.value).getD 1) ∧
    ((db.getNextId counterName).2.lookupCounter counterName =
      some ⟨counterName, (db.getNextId counterName).1 + 1⟩) ∧
    (db.lookupCounter counterName = none →
      (db.getNextId counterName).1 = 1 ∧
      (db.getNextId counterName).2.lookupCounter counterName =
        some ⟨counterName, 2⟩) ∧
    (∀ k : Nat, (getNextIdIter db counterName k).1 =
      List.range' (db.getNextId counterName).1 k) ∧
    (db.getNextId counterName).2.projects = db.projects ∧
    (db.getNextId counterName).2.contents = db.contents := by
  refine ⟨getNextId_fst db counterName, lookupCounter_getNextId db counterName,
    fun h => ?_, fun k => getNextIdIter_fst db counterName k, rfl, rfl⟩
  have h1 : (db.getNextId counterName).1 = 1 := by
    rw [getNextId_fst, h]; rfl
  refine ⟨h1, ?_⟩
  rw [lookupCounter_getNextId, h1]

/-- Witness for C1 at a concrete absent counter name: the seeded
database has no `noteId` row, the call returns 1 and stores 2. -/
theorem getNextId_sequential_counter_witness :
    initDB.lookupCounter "noteId" = none ∧
    (initDB.getNextId "noteId").1 = 1 ∧
    (initDB.getNextId "noteId").2.lookupCounter "noteId" =
      some ⟨"noteId", 2⟩ :=
  ⟨by decide, (getNextId_sequential_counter initDB "noteId").2.2.1 (by decide)⟩

/-- C3: any batch of `N` `getNextId` calls on one counter — each call
being one atomic readwrite transaction which IndexedDB serializes
against the others, so every interleaving executes as this iteration —
yields `N` pairwise distinct values that form exactly the contiguous
range from `start` (the value the first serialized call reads) to
`start + N` exclusive. -/
theorem getNextId_concurrent_unique (db : DB) (counterName : String) (N : Nat) :
    ((getNextIdIter db counterName N).1).length = N ∧
    ((getNextIdIter db counterName N).1).Nodup ∧
    (∀ v : Nat, v ∈ (getNextIdIter db counterName N).1 ↔
      (db.getNextId counterName).1 ≤ v ∧
        v < (db.getNextId counterName).1 + N) := by
  rw [getNextIdIter_fst]
  refine ⟨List.length_range' .., List.nodup_range' .., fun v => ?_⟩
  exact List.mem_range'_1

/-- C2: `deleteProject` atomically removes the project record with the
given id and exactly the content records whose `projectId` equals that
id: afterwards the project is absent, listing content for the id is
empty, and a project or content record survives if and only if it was
there before and does not belong to the deleted id; counters are
untouched, and content listings of every other project are unchanged. -/
theorem deleteProject_cascade (db : DB) (pid : Nat) :
    ((db.deleteProject pid).getProject pid = none) ∧
    ((db.deleteProject pid).getProjectContent pid = []) ∧
    (∀ p : Project, p ∈ (db.deleteProject pid).projects ↔
      p ∈ db.projects ∧ p.id ≠ pid) ∧
    (∀ c : Content, c ∈ (db.deleteProject pid).contents ↔
      c ∈ db.contents ∧ c.projectId ≠ pid) ∧
    ((db.deleteProject pid).counters = db.counters) ∧
    (∀ q : Nat, q ≠ pid →
      (db.deleteProject pid).getProjectContent q = db.getProjectContent q) := by
  refine ⟨?_, ?_, ?_, ?_, rfl, ?_⟩
  · rw [DB.getProject, List.find?_eq_none]
    intro p hp
    simp only [DB.deleteProject, List.mem_filter, decide_eq_true_eq] at hp
    simp [hp.2]
  · simp only [DB.deleteProject, DB.getProjectContent, List.filter_filter]
    rw [List.filter_eq_nil_iff]
    intro c _
    by_cases h : c.projectId = pid <;> simp [h]
  · intro p
    simp [DB.deleteProject, List.mem_filter]
  · intro c
    simp [DB.deleteProject, List.mem_filter]
  · intro q hq
    simp only [DB.deleteProject, DB.getProjectContent, List.filter_filter]
    congr 1
    funext c
    by_cases h : c.projectId = q
    · simp [h, hq]
    · simp [h]

/-- Witness for C2 on the concrete state with one project and one
content record. -/
theorem deleteProject_cascade_witness :
    ((cascadeDemoDB.deleteProject 1).getProject 1 = none) ∧
    ((cascadeDemoDB.deleteProject 1).getProjectContent 1 = []) ∧
    (∀ p : Project, p ∈ (cascadeDemoDB.deleteProject 1).projects ↔
      p ∈ cascadeDemoDB.projects ∧ p.id ≠ 1) ∧
    (∀ c : Content, c ∈ (cascadeDemoDB.deleteProject 1).contents ↔
      c ∈ cascadeDemoDB.contents ∧ c.projectId ≠ 1) ∧
    ((cascadeDemoDB.deleteProject 1).counters = cascadeDemoDB.counters) ∧
    (∀ q : Nat, q ≠ 1 →
      (cascadeDemoDB.deleteProject 1).getProjectContent q =
        cascadeDemoDB.getProjectContent q) :=
  deleteProject_cascade cascadeDemoDB 1

/-! ### Validation behavior and the content invariant -/

theorem self_mem_putByKey {α β : Type} [DecidableEq β] (key : α → β)
    (l : List α) (x : α) : x ∈ putByKey key l x := by
  rw [mem_putByKey]
  exact Or.inr rfl

theorem addContent_success (db : DB) (pid : Nat) (input : String)
    (f : Option FilePayload) (now : Nat)
    (h : ¬(jsTrim input = "" ∧ f = none)) :
    ∃ c : Content, (addContent db pid input f now).1 = some c ∧
      c.projectId = pid ∧ c.text = jsTrim input ∧ c.file = f ∧
      c.createdAt = now ∧
      c ∈ ((addContent db pid input f now).2).contents := by
  refine ⟨⟨(db.getNextId "contentId").1, pid, jsTrim input, now, none, f⟩,
    ?_, rfl, rfl, rfl, rfl, ?_⟩
  · simp only [addContent, if_neg h]
  · simp only [addContent, if_neg h]
    exact self_mem_putByKey ..

/-- C4, as stated, is false on the code: `createProject` with an
empty-after-trim name and `addContent` with both text and file absent
are silent no-ops — they return without raising any error (no
`ValidationError` exists anywhere in the code) and leave the database
untouched. -/
theorem validation_counterexample :
    createProject initDB "   " 7 = (none, initDB) ∧
    addContent initDB 1 "   " none 7 = (none, initDB) := by
  constructor <;> decide

/-- C4 amended: `createProject` with a name empty after trimming is a
silent no-op (returns nothing, raises nothing, persists nothing), and
`addContent` with both the trimmed text empty and the file absent is
likewise a silent no-op; `addContent` with empty text but a file
payload succeeds and persists the record, and `addContent` with
non-empty text and no file succeeds and persists the record. -/
theorem validation_silent_noop (db : DB) (name input text : String)
    (f : FilePayload) (pid now : Nat)
    (hname : jsTrim name = "") (hinput : jsTrim input = "")
    (htext : jsTrim text ≠ "") :
    createProject db name now = (none, db) ∧
    addContent db pid input none now = (none, db) ∧
    (∃ c : Content, (addContent db pid "" (some f) now).1 = some c ∧
      c ∈ ((addContent db pid "" (some f) now).2).contents) ∧
    (∃ c : Content, (addContent db pid text none now).1 = some c ∧
      c ∈ ((addContent db pid text none now).2).contents) := by
  refine ⟨?_, ?_, ?_, ?_⟩
  · simp [createProject, hname]
  · simp [addContent, hinput]
  · obtain ⟨c, h1, _, _, _, _, h6⟩ :=
      addContent_success db pid "" (some f) now (by simp)
    exact ⟨c, h1, h6⟩
  · obtain ⟨c, h1, _, _, _, _, h6⟩ :=
      addContent_success db pid text none now (fun hc => htext hc.1)
    exact ⟨c, h1, h6⟩

/-- Witness for the amended C4 at concrete inputs. -/
theorem validation_silent_noop_witness :
    (jsTrim " " = "" ∧ jsTrim "" = "" ∧ jsTrim "hello" ≠ "") ∧
    (createProject initDB " " 7 = (none, initDB) ∧
     addContent initDB 1 "" none 7 = (none, initDB) ∧
     (∃ c : Content,
        (addContent initDB 1 ""
          (some ⟨"a.txt", "text/plain", 1, "x", "txt", false⟩) 7).1 = some c ∧
        c ∈ ((addContent initDB 1 ""
          (some ⟨"a.txt", "text/plain", 1, "x", "txt", false⟩) 7).2).contents) ∧
     (∃ c : Content, (addContent initDB 1 "hello" none 7).1 = some c ∧
        c ∈ ((addContent initDB 1 "hello" none 7).2).contents)) :=
  ⟨⟨by decide, by decide, by decide⟩,
    validation_silent_noop initDB " " "" "hello"
      ⟨"a.txt", "text/plain", 1, "x", "txt", false⟩ 1 7
      (by decide) (by decide) (by decide)⟩

theorem contentInv_saveContent (db : DB) (hinv : ContentInv db) (c : Content)
    (hc : ContentOk c) : ContentInv (db.saveContent c) := by
  intro x hx
  have hx' : x ∈ putByKey Content.id db.contents c := hx
  rw [mem_putByKey] at hx'
  rcases hx' with ⟨hmem, _⟩ | rfl
  · exact hinv x hmem
  · exact hc

/-- C5: each operation that writes a content record — `addContent`,
`saveContentEdit`, `saveContentFileEdit` — only ever persists records
with non-empty text or a non-null file, so the store-wide invariant is
preserved by all three. -/
theorem content_invariant_preserved (db : DB) (hinv : ContentInv db)
    (pid cid now : Nat) (input tv fv : String) (f : Option FilePayload) :
    ContentInv (addContent db pid input f now).2 ∧
    ContentInv (saveContentEdit db pid cid tv now) ∧
    ContentInv (saveContentFileEdit db pid cid fv now) := by
  refine ⟨?_, ?_, ?_⟩
  · by_cases h : jsTrim input = "" ∧ f = none
    · simp only [addContent, if_pos h]
      exact hinv
    · simp only [addContent, if_neg h]
      exact contentInv_saveContent _ hinv _ (not_and_or.mp h)
  · simp only [saveContentEdit]
    split
    · exact hinv
    · split
      · exact hinv
      · next h =>
        exact contentInv_saveContent _ hinv _ (not_and_or.mp h)
  · simp only [saveContentFileEdit]
    split
    · exact hinv
    · split
      · exact hinv
      · exact contentInv_saveContent _ hinv _ (Or.inr (by simp))

/-- Witness for C5 starting from the seeded (invariant-holding)
database. -/
theorem content_invariant_preserved_witness :
    ContentInv initDB ∧
    (ContentInv (addContent initDB 1 "hi" none 2).2 ∧
     ContentInv (saveContentEdit initDB 1 1 "x" 2) ∧
     ContentInv (saveContentFileEdit initDB 1 1 "y" 2)) :=
  ⟨fun _ hc => (nomatch hc),
    content_invariant_preserved initDB (fun _ hc => (nomatch hc)) 1 1 2 "hi" "x" "y" none⟩

/-- C6: `addContent` never looks the referenced project up — for every
`projectId` value, dangling or not, a call with non-empty trimmed text
succeeds and persists a content record carrying that `projectId`. -/
theorem addContent_no_existence_check (db : DB) (pid : Nat) (input : String)
    (f : Option FilePayload) (now : Nat) (h : jsTrim input ≠ "") :
    ∃ c : Content, (addContent db pid input f now).1 = some c ∧
      c.projectId = pid ∧ c ∈ ((addContent db pid input f now).2).contents := by
  obtain ⟨c, h1, h2, _, _, _, h6⟩ :=
    addContent_success db pid input f now (fun hc => h hc.1)
  exact ⟨c, h1, h2, h6⟩

/-- Witness for C6: project 42 does not exist in the seeded store, yet
adding content under it succeeds and is persisted. -/
theorem addContent_no_existence_check_witness :
    jsTrim "orphan" ≠ "" ∧ initDB.getProject 42 = none ∧
    (∃ c : Content, (addContent initDB 42 "orphan" none 3).1 = some c ∧
      c.projectId = 42 ∧
      c ∈ ((addContent initDB 42 "orphan" none 3).2).contents) :=
  ⟨by decide, by decide,
    addContent_no_existence_check initDB 42 "orphan" none 3 (by decide)⟩

/-! ### Rename and delete -/

/-- C7: renaming a stored project with a name that is non-empty after
trimming makes a subsequent fetch of that id return the record with
`name` replaced by the trimmed new name and `id` and `createdAt`
exactly as fetched before; every other project record is untouched, as
are the content and counter stores. -/
theorem editProject_rename_frame (db : DB) (pid : Nat) (p : Project)
    (newName : String) (hp : db.getProject pid = some p)
    (hn : jsTrim newName ≠ "") :
    ((editProject db pid (some newName)).getProject pid =
      some ⟨p.id, jsTrim newName, p.createdAt⟩) ∧
    (∀ q : Project, q.id ≠ pid →
      (q ∈ (editProject db pid (some newName)).projects ↔ q ∈ db.projects)) ∧
    ((editProject db pid (some newName)).contents = db.contents) ∧
    ((editProject db pid (some newName)).counters = db.counters) := by
  have hid : p.id = pid := by
    have := List.find?_some hp
    simpa using this
  simp only [editProject, hp, if_neg hn]
  refine ⟨?_, ?_, rfl, rfl⟩
  · show (putByKey Project.id db.projects
        ⟨p.id, jsTrim newName, p.createdAt⟩).find? (fun q => q.id = pid) =
      some ⟨p.id, jsTrim newName, p.createdAt⟩
    rw [← hid]
    exact find?_putByKey_self Project.id db.projects
      ⟨p.id, jsTrim newName, p.createdAt⟩
  · intro q hq
    show q ∈ putByKey Project.id db.projects
        ⟨p.id, jsTrim newName, p.createdAt⟩ ↔ q ∈ db.projects
    rw [mem_putByKey]
    constructor
    · rintro (⟨hmem, _⟩ | rfl)
      · exact hmem
      · exact absurd hid hq
    · intro hmem
      exact Or.inl ⟨hmem, by simpa [hid] using hq⟩

/-- Witness for C7: rename the first created project. -/
theorem editProject_rename_frame_witness :
    ((createProject initDB "Alpha" 10).2.getProject 1 =
        some ⟨1, "Alpha", 10⟩ ∧ jsTrim " Beta " ≠ "") ∧
    (((editProject (createProject initDB "Alpha" 10).2 1
        (some " Beta ")).getProject 1 = some ⟨1, "Beta", 10⟩) ∧
     (∀ q : Project, q.id ≠ 1 →
       (q ∈ (editProject (createProject initDB "Alpha" 10).2 1
          (some " Beta ")).projects ↔
        q ∈ (createProject initDB "Alpha" 10).2.projects)) ∧
     ((editProject (createProject initDB "Alpha" 10).2 1
        (some " Beta ")).contents =
          (createProject initDB "Alpha" 10).2.contents) ∧
     ((editProject (createProject initDB "Alpha" 10).2 1
        (some " Beta ")).counters =
          (createProject initDB "Alpha" 10).2.counters)) :=
  ⟨⟨by decide, by decide⟩,
    editProject_rename_frame (createProject initDB "Alpha" 10).2 1
      ⟨1, "Alpha", 10⟩ " Beta " (by decide) (by decide)⟩

/-- C8: deleting a content id that is absent from the store is a
successful no-op — the state is unchanged and no error arises (the
embedding of `deleteContent` is total, as the code resolves `true`
unconditionally) — and in particular a second delete of the same id
after a first one changes nothing. -/
theorem deleteContent_absent_noop (db : DB) (cid : Nat) :
    (db.contents.find? (fun c => c.id = cid) = none →
      db.deleteContent cid = db) ∧
    ((db.deleteContent cid).deleteContent cid = db.deleteContent cid) := by
  constructor
  · intro h
    rw [List.find?_eq_none] at h
    have hf : db.contents.filter (fun c => c.id ≠ cid) = db.contents := by
      rw [List.filter_eq_self]
      intro a ha
      have := h a ha
      simpa using this
    have he : db.deleteContent cid =
        { db with contents := db.contents.filter (fun c => c.id ≠ cid) } := rfl
    rw [he, hf]
  · simp only [DB.deleteContent, List.filter_filter, Bool.and_self]

/-- Witness for C8: content id 5 is absent from the seeded store, and
deleting it changes nothing; the double delete collapses likewise. -/
theorem deleteContent_absent_noop_witness :
    initDB.contents.find? (fun c => c.id = 5) = none ∧
    initDB.deleteContent 5 = initDB ∧
    (initDB.deleteContent 5).deleteContent 5 = initDB.deleteContent 5 :=
  ⟨by decide, (deleteContent_absent_noop initDB 5).1 (by decide),
    (deleteContent_absent_noop initDB 5).2⟩

/-! ### Recent-activity statistic -/

/-- C9: `getRecentProjectsCount` returns exactly the number of
distinct projectId values that are recently active in the sense of the
claim, and membership in the set it builds coincides with that
characterization — so a project created inside the window is counted
and a project whose creation and all content lie outside it is not. -/
theorem recent_count_characterization (db : DB) (cutoff : Nat) :
    (∀ pid : Nat, pid ∈ db.recentProjectIds cutoff ↔
      specRecentlyActive db cutoff pid) ∧
    db.getRecentProjectsCount cutoff = (specActivePids db cutoff).card := by
  have hmem : ∀ pid : Nat, pid ∈ db.recentProjectIds cutoff ↔
      specRecentlyActive db cutoff pid := by
    intro pid
    simp only [DB.recentProjectIds, specRecentlyActive, Finset.mem_union,
      List.mem_toFinset, List.mem_map, List.mem_filter, decide_eq_true_eq]
    constructor
    · rintro (⟨p, ⟨hp, hcut⟩, rfl⟩ | ⟨c, ⟨hc, hcut⟩, rfl⟩)
      · exact Or.inl ⟨p, hp, rfl, hcut⟩
      · exact Or.inr ⟨c, hc, rfl, hcut⟩
    · rintro (⟨p, hp, rfl, hcut⟩ | ⟨c, hc, rfl, hcut⟩)
      · exact Or.inl ⟨p, ⟨hp, hcut⟩, rfl⟩
      · exact Or.inr ⟨c, ⟨hc, hcut⟩, rfl⟩
  refine ⟨hmem, ?_⟩
  unfold DB.getRecentProjectsCount
  congr 1
  ext pid
  rw [hmem]
  simp only [specActivePids, Finset.mem_filter, Finset.mem_union,
    List.mem_toFinset, List.mem_map]
  constructor
  · intro h
    refine ⟨?_, h⟩
    rcases h with ⟨p, hp, hid, _⟩ | ⟨c, hc, hid, _⟩
    · exact Or.inl ⟨p, hp, hid⟩
    · exact Or.inr ⟨c, hc, hid⟩
  · exact fun h => h.2

/-- C10: the recent-activity scan collects `projectId`s of recent
content without checking the projects store, and content insertion
never verifies project existence; the state reached by one `addContent`
under a dangling projectId therefore has that id counted and the
statistic exceeds the number of stored projects (1 counted vs 0
projects). -/
theorem orphan_content_inflates_recent_count :
    ((addContent initDB 7 "orphan idea" none 100).2.getProject 7 = none) ∧
    (7 ∈ (addContent initDB 7 "orphan idea" none 100).2.recentProjectIds 0) ∧
    ((addContent initDB 7 "orphan idea" none 100).2.projects.length <
      (addContent initDB 7 "orphan idea" none 100).2.getRecentProjectsCount 0) := by
  refine ⟨by decide, by decide, by decide⟩
